import Mathlib

/-!
Verification development for the tweets-home-track extension.

Shallow embedding of:
- the retention store (addPosts merge, getLatestTimestamp, reset) from the
  storage module,
- the incremental scroll collector (scrapeTweetsWithScrolling) from the
  twitterScraper content script,
- the timestamp normalizer (parseRelativeTime, formatTimestamp), the
  identity computation (TextEncoder / btoa based id generation) from the
  monitoring content script,
- the poll/reload orchestrator timer-fire transition from the background
  script.

Modelling conventions: an ISO-8601 instant string is represented by its
parsed time value (an Int of milliseconds, what new Date(s).getTime()
yields); JavaScript strings are represented as List Nat of code points
where byte-level encoding matters and as String or List Char elsewhere;
asynchronous host effects are represented as explicit effect lists;
exceptions are represented with Except.
-/

namespace TweetsTrack

/-! ### Retention store (storage module, addPosts) -/

/-- A stored post. The publishTime field holds the parsed time value of the
ISO string (new Date(p.publishTime).getTime()). -/
structure TwitterPost where
  id : String
  author : String
  content : String
  timestamp : String
  publishTime : Int
deriving DecidableEq

/-- The persisted storage state. lastFetchTime is none for the initial
empty-string value and some t once set to an instant with time value t. -/
structure TwitterStorageState where
  posts : List TwitterPost
  lastFetchTime : Option Int
  isFirstTime : Bool
deriving DecidableEq

/-- The default state the storage is created with. -/
def defaultState : TwitterStorageState :=
  { posts := [], lastFetchTime := none, isFirstTime := true }

/-- The comparator order used by the merge: a may precede b when b's time
value is at most a's (descending by publishTime, ties keep input order
because the sort below is stable, as is the JavaScript engine sort). -/
def postGE (a b : TwitterPost) : Prop :=
  b.publishTime ≤ a.publishTime

instance : DecidableRel postGE := fun a b =>
  inferInstanceAs (Decidable (b.publishTime ≤ a.publishTime))

instance : IsTotal TwitterPost postGE :=
  ⟨fun a b => (Int.le_total a.publishTime b.publishTime).symm⟩

instance : IsTrans TwitterPost postGE :=
  ⟨fun _ _ _ hab hbc => le_trans hbc hab⟩

/-- Maximum number of retained posts (the slice bound in addPosts). -/
def maxRetained : Nat := 20

/-- The uniqueNewPosts computation of addPosts: batch posts whose id is not
among the ids of the currently stored posts (the existingIds set). -/
def novelPosts (newPosts : List TwitterPost) (s : TwitterStorageState) :
    List TwitterPost :=
  newPosts.filter (fun p => p.id ∉ s.posts.map TwitterPost.id)

/-- The addPosts merge. Filters the batch against the ids already stored,
prepends the survivors, stable-sorts descending by publishTime, truncates
to 20, stamps lastFetchTime with the current instant (now), clears
isFirstTime, and returns the length of the filtered batch. -/
def addPosts (newPosts : List TwitterPost) (now : Int) (s : TwitterStorageState) :
    TwitterStorageState × Nat :=
  ({ posts := (List.insertionSort postGE (novelPosts newPosts s ++ s.posts)).take maxRetained,
     lastFetchTime := some now, isFirstTime := false },
    (novelPosts newPosts s).length)

/-- The getLatestTimestamp operation: time value of the head post. -/
def getLatestTimestamp (s : TwitterStorageState) : Option Int :=
  match s.posts with
  | [] => none
  | p :: _ => some p.publishTime

/-- The reset operation restores the default state. -/
def resetStore : TwitterStorageState := defaultState

/-- Apply a sequence of merges to a starting state; each call carries its
batch and the ambient current instant at that call. -/
def mergeAll (batches : List (List TwitterPost × Int)) (s : TwitterStorageState) :
    TwitterStorageState :=
  batches.foldl (fun s b => (addPosts b.1 b.2 s).1) s

/-- Run a sequence of merges from the default state. -/
def runBatches (batches : List (List TwitterPost × Int)) : TwitterStorageState :=
  mergeAll batches defaultState

/-- The retention invariant: descending by publishTime, unique ids, at most
20 posts. -/
def retentionInvariant (s : TwitterStorageState) : Prop :=
  List.Sorted postGE s.posts ∧ (s.posts.map TwitterPost.id).Nodup ∧
    s.posts.length ≤ maxRetained

/-! ### Incremental scroll collector (twitterScraper content script) -/

/-- A raw tweet as produced by scrapeCurrentViewPortTweets. -/
structure RawTweet where
  author : String
  displayTimestamp : String
  content : String
  rawDatetime : String
deriving DecidableEq

/-- The within-run dedup key built from author and precise rawDatetime. -/
def uniqueKey (t : RawTweet) : String :=
  t.author ++ "-" ++ t.rawDatetime

/-- One element of the per-step forEach: append the tweet and its key when
the key is not yet in the identifier set, and raise the found-new flag.
The JavaScript Set is modelled as the list of inserted keys. -/
def scrapeStep (acc : List RawTweet × List String × Bool) (t : RawTweet) :
    List RawTweet × List String × Bool :=
  if uniqueKey t ∈ acc.2.1 then acc
  else (acc.1 ++ [t], uniqueKey t :: acc.2.1, true)

/-- One collection step over the tweets currently in view, starting with the
found-new flag cleared. -/
def stepMerge (collected : List RawTweet) (keys : List String)
    (inView : List RawTweet) : List RawTweet × List String × Bool :=
  inView.foldl scrapeStep (collected, keys, false)

/-- minTweetsToCollect in scrapeTweetsWithScrolling. -/
def minTweetsToCollect : Nat := 20

/-- maxScrollAttempts in scrapeTweetsWithScrolling. -/
def maxScrollAttempts : Nat := 10

/-- Why a run of the collector stopped. -/
inductive StopReason
  | TargetReached
  | MaxAttemptsReached
  | NoNewContent
deriving DecidableEq

/-- Outcome of a collector run: the accumulated tweets, the stop reason and
the number of executed steps (the final scrollAttempts counter). -/
structure ScrollResult where
  tweets : List RawTweet
  reason : StopReason
  attempts : Nat
deriving DecidableEq

/-- The while loop of scrapeTweetsWithScrolling. The page snapshot read at
step i is view i (the loop is deterministic given the stream of snapshots).
The first break (target reached) is guarded by the source's conjunction
collected.length >= min AND attempts > 0, the second (no new content) by
NOT foundNew AND attempts > 1; otherwise the loop scrolls, waits and
re-tests the while condition. -/
def scrapeLoop (view : Nat → List RawTweet) (collected : List RawTweet)
    (keys : List String) (attempts : Nat) : ScrollResult :=
  if h : collected.length < minTweetsToCollect ∧ attempts < maxScrollAttempts then
    if minTweetsToCollect ≤ (stepMerge collected keys (view attempts)).1.length ∧
        0 < attempts + 1 then
      { tweets := (stepMerge collected keys (view attempts)).1,
        reason := StopReason.TargetReached, attempts := attempts + 1 }
    else if (stepMerge collected keys (view attempts)).2.2 = false ∧
        1 < attempts + 1 then
      { tweets := (stepMerge collected keys (view attempts)).1,
        reason := StopReason.NoNewContent, attempts := attempts + 1 }
    else
      scrapeLoop view (stepMerge collected keys (view attempts)).1
        (stepMerge collected keys (view attempts)).2.1 (attempts + 1)
  else
    { tweets := collected,
      reason :=
        if minTweetsToCollect ≤ collected.length then StopReason.TargetReached
        else StopReason.MaxAttemptsReached,
      attempts := attempts }
termination_by maxScrollAttempts - attempts
decreasing_by simp_wf; omega

/-- A full collector run from the empty accumulator. -/
def scrapeTweetsWithScrolling (view : Nat → List RawTweet) : ScrollResult :=
  scrapeLoop view [] [] 0

/-- The state (collected tweets, key set) reached after n collection steps
when no stopping policy interferes; used to phrase what each step of a run
contributes. -/
def freeState (view : Nat → List RawTweet) : Nat → List RawTweet × List String
  | 0 => ([], [])
  | n + 1 =>
    let st := freeState view n
    let out := stepMerge st.1 st.2 (view n)
    (out.1, out.2.1)

/-- Number of tweets accumulated after n free-running steps. -/
def collectedCount (view : Nat → List RawTweet) (n : Nat) : Nat :=
  (freeState view n).1.length

/-- Characterization of a collector run that entered the loop at step
counter m: the result accumulates exactly the free-running state at its
final step counter, executes between 1 and maxScrollAttempts steps, and
stops with reason TargetReached precisely when the accumulated count
reached the target, with NoNewContent precisely when the target was not
reached and the last executed step was after the first and contributed no
novel tweet, and with MaxAttemptsReached precisely when the target was not
reached, all maxScrollAttempts steps ran, and the last step still
contributed a novel tweet. -/
def runSpec (view : Nat → List RawTweet) (m : Nat) (r : ScrollResult) : Prop :=
  r.tweets = (freeState view r.attempts).1 ∧
  m ≤ r.attempts ∧
  1 ≤ r.attempts ∧
  r.attempts ≤ maxScrollAttempts ∧
  (r.reason = StopReason.TargetReached ↔
    minTweetsToCollect ≤ collectedCount view r.attempts) ∧
  (r.reason = StopReason.NoNewContent ↔
    collectedCount view r.attempts < minTweetsToCollect ∧ 2 ≤ r.attempts ∧
      collectedCount view r.attempts = collectedCount view (r.attempts - 1)) ∧
  (r.reason = StopReason.MaxAttemptsReached ↔
    collectedCount view r.attempts < minTweetsToCollect ∧
      r.attempts = maxScrollAttempts ∧
      collectedCount view maxScrollAttempts ≠
        collectedCount view (maxScrollAttempts - 1))

/-! ### Timestamp normalizer (monitoring content script) -/

/-- Decimal digit list of a natural number, as String(n) renders it. -/
def natDigits (n : Nat) : List Char :=
  if h : n < 10 then [Nat.digitChar n]
  else natDigits (n / 10) ++ [Nat.digitChar (n % 10)]
termination_by n
decreasing_by simp_wf; exact Nat.div_lt_self (by omega) (by omega)

/-- Decimal rendering of an integer time value, as String(t) renders it. -/
def intDigits (t : Int) : List Char :=
  if t < 0 then '-' :: natDigits t.natAbs else natDigits t.toNat

/-- padStart(2, ch0) of a rendered number. -/
def pad2 (s : List Char) : List Char :=
  List.replicate (2 - s.length) '0' ++ s

/-- A Date viewed through its local-time accessors (getFullYear, getMonth
0-based, getDate, getHours, getMinutes, getSeconds). -/
structure JSDateLocal where
  fullYear : Nat
  month : Nat
  date : Nat
  hours : Nat
  minutes : Nat
  seconds : Nat
deriving DecidableEq

/-- formatTimestamp: year then padded month (getMonth()+1), day, hours,
minutes, seconds joined with the slash, space and colon separators. -/
def formatTimestamp (d : JSDateLocal) : List Char :=
  natDigits d.fullYear ++ '/' ::
    (pad2 (natDigits (d.month + 1)) ++ '/' ::
      (pad2 (natDigits d.date) ++ ' ' ::
        (pad2 (natDigits d.hours) ++ ':' ::
          (pad2 (natDigits d.minutes) ++ ':' :: pad2 (natDigits d.seconds)))))

/-- First match of the pattern digits-then-unit, as timeText.match with the
unanchored regex of one-or-more digits followed by one of s, m, h, d: scan
left to right; at a digit, the greedy digit run must be followed directly
by a unit letter, otherwise scanning resumes one position further. Returns
the captured digit run and unit letter. -/
def findTimeMatch : List Char → Option (List Char × Char)
  | [] => none
  | c :: rest =>
    if c.isDigit then
      match (c :: rest).dropWhile Char.isDigit with
      | [] => findTimeMatch rest
      | u :: _ =>
        if u = 's' ∨ u = 'm' ∨ u = 'h' ∨ u = 'd' then
          some ((c :: rest).takeWhile Char.isDigit, u)
        else findTimeMatch rest
    else findTimeMatch rest

/-- parseInt on a run of decimal digits. -/
def digitsToNat (ds : List Char) : Nat :=
  ds.foldl (fun n c => n * 10 + (c.toNat - 48)) 0

/-- parseRelativeTime: on no match return the current instant, otherwise
subtract the parsed amount of seconds, minutes, hours or days (the switch
default returns the current instant). Instants are time values in
milliseconds. -/
def parseRelativeTime (now : Int) (timeText : List Char) : Int :=
  match findTimeMatch timeText with
  | none => now
  | some (ds, u) =>
    let value : Int := (digitsToNat ds : Int)
    if u = 's' then now - value * 1000
    else if u = 'm' then now - value * 60000
    else if u = 'h' then now - value * 3600000
    else if u = 'd' then now - value * 86400000
    else now

/-- Milliseconds per relative-time unit letter (0 for any other letter,
matching the switch default that keeps the current instant). -/
def unitMillis (u : Char) : Int :=
  if u = 's' then 1000
  else if u = 'm' then 60000
  else if u = 'h' then 3600000
  else if u = 'd' then 86400000
  else 0

/-- Timestamp resolution for one extracted item, lines 232-261 of the
monitoring content script together with the toISOString call that the tweet
construction performs on the result. parseAbsoluteDatetime stands for the
host Date parser applied to a datetime attribute value (none when the
attribute is an unparseable datetime, producing an Invalid Date): in that
case toISOString raises a RangeError which the per-item catch turns into
skipping the item. Without the attribute, the relative-text parser runs; it
always yields a valid instant (its isNaN guard cannot fire in this model
because parseRelativeTime is total). -/
def normalizePublishTime (parseAbsoluteDatetime : List Char → Option Int)
    (now : Int) (datetimeAttr : Option (List Char)) (timeText : List Char) :
    Except String Int :=
  match datetimeAttr with
  | some a =>
    match parseAbsoluteDatetime a with
    | some t => Except.ok t
    | none => Except.error "RangeError: invalid time value"
  | none => Except.ok (parseRelativeTime now timeText)

/-! ### Identity computation (monitoring content script, id generation) -/

/-- UTF-8 encoding of one code point (what TextEncoder emits per code
point). -/
def utf8EncodeChar (c : Nat) : List Nat :=
  if c < 128 then [c]
  else if c < 2048 then [192 + c / 64, 128 + c % 64]
  else if c < 65536 then [224 + c / 4096, 128 + c / 64 % 64, 128 + c % 64]
  else [240 + c / 262144, 128 + c / 4096 % 64, 128 + c / 64 % 64, 128 + c % 64]

/-- UTF-8 encoding of a code-point sequence. -/
def utf8Encode (s : List Nat) : List Nat :=
  (s.map utf8EncodeChar).flatten

/-- The base64 alphabet used by btoa, indices 0 to 63. -/
def base64Alphabet : List Char :=
  ['A', 'B', 'C', 'D', 'E', 'F', 'G', 'H', 'I', 'J', 'K', 'L', 'M',
   'N', 'O', 'P', 'Q', 'R', 'S', 'T', 'U', 'V', 'W', 'X', 'Y', 'Z',
   'a', 'b', 'c', 'd', 'e', 'f', 'g', 'h', 'i', 'j', 'k', 'l', 'm',
   'n', 'o', 'p', 'q', 'r', 's', 't', 'u', 'v', 'w', 'x', 'y', 'z',
   '0', '1', '2', '3', '4', '5', '6', '7', '8', '9', '+', '/']

/-- Character for a sextet value (always below 64 where used). -/
def b64Char (i : Nat) : Char :=
  base64Alphabet.getD i 'A'

/-- Base64 of a byte sequence with trailing padding, 3 input bytes to 4
output characters. -/
def base64Encode : List Nat → List Char
  | [] => []
  | [b1] => [b64Char (b1 / 4), b64Char (b1 % 4 * 16), '=', '=']
  | [b1, b2] => [b64Char (b1 / 4), b64Char (b1 % 4 * 16 + b2 / 16), b64Char (b2 % 16 * 4), '=']
  | b1 :: b2 :: b3 :: rest =>
    b64Char (b1 / 4) :: b64Char (b1 % 4 * 16 + b2 / 16) ::
      b64Char (b2 % 16 * 4 + b3 / 64) :: b64Char (b3 % 64) :: base64Encode rest

/-- btoa: raises InvalidCharacterError when a code unit of its input
exceeds 255, otherwise base64-encodes the units. Its input here is the
String.fromCharCode image of the UTF-8 bytes, represented by the byte list
itself. -/
def btoaE (cs : List Nat) : Except String (List Char) :=
  if cs.all (fun c => c < 256) then Except.ok (base64Encode cs)
  else Except.error "InvalidCharacterError"

/-- The a-z, A-Z, 0-9 class kept by the replace that strips every other
character. -/
def isAlnumChar (c : Char) : Bool :=
  ('a' ≤ c && c ≤ 'z') || ('A' ≤ c && c ≤ 'Z') || ('0' ≤ c && c ≤ '9')

/-- Code points of the concatenation author + content + String(getTime()),
the id source string. Author and content are code-point lists. -/
def idSourceCps (author content : List Nat) (t : Int) : List Nat :=
  author ++ content ++ (intDigits t).map Char.toNat

/-- The pure value of the id computation: base64 of the UTF-8 bytes with
non-alphanumerics removed, truncated to 16 characters. -/
def computeIdentity (author content : List Nat) (t : Int) : List Char :=
  ((base64Encode (utf8Encode (idSourceCps author content t))).filter isAlnumChar).take 16

/-- The id computation with its fallible btoa step made explicit. -/
def computeIdentityE (author content : List Nat) (t : Int) :
    Except String (List Char) :=
  match btoaE (utf8Encode (idSourceCps author content t)) with
  | Except.ok s => Except.ok ((s.filter isAlnumChar).take 16)
  | Except.error e => Except.error e

/-! ### Poll/reload orchestrator (background script) -/

/-- The background script's module state: the repeating-timer handle, the
tracked tab id and the pending-reload bookkeeping. -/
structure BgState where
  refreshIntervalId : Option Nat
  twitterTabId : Option Nat
  isReloadingForScrape : Bool
  reloadingTabId : Option Nat
deriving DecidableEq

/-- Host effects the background script can issue during a transition. -/
inductive BgEffect
  | reloadTab (id : Nat)
  | sendScrapeRequest (id : Nat)
deriving DecidableEq

/-- stopPeriodicRefresh: clear the interval when one is active; the tracked
tab id is deliberately left untouched. -/
def stopPeriodicRefresh (s : BgState) : BgState :=
  if s.refreshIntervalId.isSome then { s with refreshIntervalId := none } else s

/-- One fire of the periodic timer installed by startPeriodicRefresh: with
no tracked tab id the timer stops itself and nothing else happens;
otherwise the pending-reload flags are set and a reload of the tracked tab
is issued. -/
def onTimerFire (s : BgState) : BgState × List BgEffect :=
  match s.twitterTabId with
  | none => (stopPeriodicRefresh s, [])
  | some tabId =>
    ({ s with isReloadingForScrape := true, reloadingTabId := some tabId },
      [BgEffect.reloadTab tabId])

/-! ### Concrete data for counterexamples and witnesses -/

/-- A concrete post. -/
def postA : TwitterPost :=
  { id := "idA", author := "alice", content := "hello", timestamp := "t1", publishTime := 100 }

/-- A different post sharing the id of postA. -/
def postB : TwitterPost :=
  { id := "idA", author := "bob", content := "world", timestamp := "t2", publishTime := 200 }

/-- A concrete post with its own id. -/
def postC : TwitterPost :=
  { id := "idC", author := "carol", content := "hey", timestamp := "t3", publishTime := 300 }

/-- A store state holding exactly postC. -/
def stateC : TwitterStorageState :=
  { posts := [postC], lastFetchTime := some 5, isFirstTime := false }

/-- A batch of 25 posts with pairwise distinct ids and strictly increasing
publish instants 0, 1, ..., 24. -/
def batch25 : List TwitterPost :=
  (List.range 25).map fun i =>
    { id := toString i, author := "a", content := "c", timestamp := "t",
      publishTime := (i : Int) }

/-! ## Theorems

Retention store: merge invariants (claims C1 to C4). -/

/-- The merged post list is sorted descending by publishTime, whatever the
inputs. -/
lemma addPosts_sorted (b : List TwitterPost) (now : Int) (s : TwitterStorageState) :
    List.Sorted postGE (addPosts b now s).1.posts := by
  have h : List.Pairwise postGE (List.insertionSort postGE (novelPosts b s ++ s.posts)) :=
    List.sorted_insertionSort postGE (novelPosts b s ++ s.posts)
  exact h.sublist (List.take_sublist _ _)

/-- The merged post list never exceeds the retention bound. -/
lemma addPosts_length_le (b : List TwitterPost) (now : Int) (s : TwitterStorageState) :
    (addPosts b now s).1.posts.length ≤ maxRetained :=
  List.length_take_le maxRetained _

/-- When the batch itself has pairwise distinct ids, the merge keeps the
stored ids pairwise distinct. -/
lemma addPosts_ids_nodup (b : List TwitterPost) (now : Int) (s : TwitterStorageState)
    (hs : (s.posts.map TwitterPost.id).Nodup)
    (hb : (b.map TwitterPost.id).Nodup) :
    ((addPosts b now s).1.posts.map TwitterPost.id).Nodup := by
  have hsub : List.Sublist ((addPosts b now s).1.posts.map TwitterPost.id)
      ((List.insertionSort postGE (novelPosts b s ++ s.posts)).map TwitterPost.id) :=
    (List.take_sublist _ _).map _
  have hperm := (List.perm_insertionSort postGE (novelPosts b s ++ s.posts)).map TwitterPost.id
  have hnd : ((novelPosts b s ++ s.posts).map TwitterPost.id).Nodup := by
    rw [List.map_append, List.nodup_append]
    refine ⟨hb.sublist ((List.filter_sublist b).map _), hs, ?_⟩
    intro x hx1 hx2
    obtain ⟨p, hp, rfl⟩ := List.mem_map.1 hx1
    have hnp := (List.mem_filter.1 hp).2
    simp only [decide_eq_true_eq] at hnp
    exact hnp hx2
  exact (hperm.nodup_iff.2 hnd).sublist hsub

/-- Sortedness and the length bound are preserved by any sequence of
merges. -/
lemma mergeAll_sorted_len (batches : List (List TwitterPost × Int)) :
    ∀ s : TwitterStorageState, List.Sorted postGE s.posts → s.posts.length ≤ maxRetained →
      List.Sorted postGE (mergeAll batches s).posts ∧
        (mergeAll batches s).posts.length ≤ maxRetained := by
  induction batches with
  | nil => intro s h1 h2; exact ⟨h1, h2⟩
  | cons b bs ih =>
    intro s _ _
    exact ih (addPosts b.1 b.2 s).1 (addPosts_sorted b.1 b.2 s) (addPosts_length_le b.1 b.2 s)

/-- Distinctness of stored ids is preserved by any sequence of merges whose
batches each have pairwise distinct ids. -/
lemma mergeAll_ids_nodup (batches : List (List TwitterPost × Int)) :
    ∀ s : TwitterStorageState, (s.posts.map TwitterPost.id).Nodup →
      (∀ b ∈ batches, (b.1.map TwitterPost.id).Nodup) →
      ((mergeAll batches s).posts.map TwitterPost.id).Nodup := by
  induction batches with
  | nil => intro s h1 _; exact h1
  | cons b bs ih =>
    intro s hs hb
    exact ih (addPosts b.1 b.2 s).1
      (addPosts_ids_nodup b.1 b.2 s hs (hb b (List.mem_cons_self b bs)))
      (fun x hx => hb x (List.mem_cons_of_mem b hx))

/-- C1, counterexample: merging a single batch that contains two posts with
the same id (both novel) stores both, so the stored ids are not unique. -/
theorem claim1_counterexample :
    ¬ ((runBatches [([postA, postB], 7)]).posts.map TwitterPost.id).Nodup := by
  decide

/-- C1 (amended): after every sequence of merges the stored posts are
sorted descending by publishTime and number at most 20; when moreover every
batch has pairwise-distinct ids, the stored ids are pairwise distinct. -/
theorem claim1_retention_invariant (batches : List (List TwitterPost × Int)) :
    List.Sorted postGE (runBatches batches).posts ∧
      (runBatches batches).posts.length ≤ maxRetained ∧
      ((∀ b ∈ batches, (b.1.map TwitterPost.id).Nodup) →
        ((runBatches batches).posts.map TwitterPost.id).Nodup) := by
  have h := mergeAll_sorted_len batches defaultState (by simp [defaultState]) (by simp [defaultState, maxRetained])
  exact ⟨h.1, h.2, fun hb => mergeAll_ids_nodup batches defaultState (by simp [defaultState]) hb⟩

/-- C1 witness: the invariant instantiated on one concrete merge. -/
theorem claim1_witness :
    List.Sorted postGE (runBatches [([postC], 7)]).posts ∧
      (runBatches [([postC], 7)]).posts.length ≤ maxRetained ∧
      ((runBatches [([postC], 7)]).posts.map TwitterPost.id).Nodup :=
  ⟨(claim1_retention_invariant [([postC], 7)]).1,
    (claim1_retention_invariant [([postC], 7)]).2.1,
    (claim1_retention_invariant [([postC], 7)]).2.2 (by decide)⟩

/-- C2, counterexample: merging a batch whose ids are all already stored
still overwrites lastFetchTime with the current instant, so the state does
not stay unchanged. -/
theorem claim2_counterexample :
    ¬ ((addPosts [postC] 99 stateC).1.posts = stateC.posts ∧
       (addPosts [postC] 99 stateC).1.lastFetchTime = stateC.lastFetchTime ∧
       (addPosts [postC] 99 stateC).2 = 0) := by
  decide

/-- C2 (amended): merging a batch whose ids are all already stored returns
0 and leaves the stored posts unchanged (given the retention invariant
shape of the state), but stamps lastFetchTime with the current instant and
forces isFirstTime to false. -/
theorem claim2_all_known_merge (b : List TwitterPost) (now : Int) (s : TwitterStorageState)
    (hknown : ∀ p ∈ b, p.id ∈ s.posts.map TwitterPost.id)
    (hsorted : List.Sorted postGE s.posts)
    (hlen : s.posts.length ≤ maxRetained) :
    (addPosts b now s).1.posts = s.posts ∧ (addPosts b now s).2 = 0 ∧
      (addPosts b now s).1.lastFetchTime = some now ∧
      (addPosts b now s).1.isFirstTime = false := by
  have hnov : novelPosts b s = [] := by
    rw [novelPosts, List.filter_eq_nil_iff]
    intro p hp
    simp only [decide_eq_true_eq, Decidable.not_not]
    exact hknown p hp
  refine ⟨?_, ?_, rfl, rfl⟩
  · show (List.insertionSort postGE (novelPosts b s ++ s.posts)).take maxRetained = s.posts
    rw [hnov, List.nil_append, hsorted.insertionSort_eq, List.take_of_length_le hlen]
  · show (novelPosts b s).length = 0
    rw [hnov]; rfl

/-- C2 witness: the amended statement on a concrete all-known batch. -/
theorem claim2_witness :
    (addPosts [postC] 99 stateC).1.posts = stateC.posts ∧
      (addPosts [postC] 99 stateC).2 = 0 ∧
      (addPosts [postC] 99 stateC).1.lastFetchTime = some 99 ∧
      (addPosts [postC] 99 stateC).1.isFirstTime = false :=
  claim2_all_known_merge [postC] 99 stateC (by decide) (by decide) (by decide)

/-- Inserting an element below everything in the list lands at its end. -/
lemma orderedInsert_eq_append (a : TwitterPost) :
    ∀ m : List TwitterPost, (∀ b ∈ m, ¬ postGE a b) →
      List.orderedInsert postGE a m = m ++ [a]
  | [], _ => rfl
  | b :: m, h => by
    rw [List.orderedInsert, if_neg (h b (List.mem_cons_self b m)),
      orderedInsert_eq_append a m (fun x hx => h x (List.mem_cons_of_mem b hx))]
    rfl

/-- Sorting a strictly ascending list descending reverses it. -/
lemma insertionSort_strictAsc (l : List TwitterPost)
    (h : l.Pairwise (fun a b => a.publishTime < b.publishTime)) :
    List.insertionSort postGE l = l.reverse := by
  induction l with
  | nil => rfl
  | cons a t ih =>
    rw [List.insertionSort, ih h.of_cons, orderedInsert_eq_append]
    · exact (List.reverse_cons a t).symm
    · intro b hb
      have hab : a.publishTime < b.publishTime :=
        (List.pairwise_cons.1 h).1 b (List.mem_reverse.1 hb)
      exact fun hle => absurd hab (not_lt.2 hle)

/-- C3, counterexample: on the 25-post strictly ascending batch the
resulting lastFetchTime is the merge-call instant, not the newest retained
post's instant, so the claimed conjunction fails. -/
theorem claim3_counterexample :
    ¬ ((addPosts batch25 999 defaultState).1.posts = batch25.reverse.take maxRetained ∧
       (addPosts batch25 999 defaultState).1.isFirstTime = false ∧
       (addPosts batch25 999 defaultState).1.lastFetchTime =
         getLatestTimestamp (addPosts batch25 999 defaultState).1) := by
  decide

/-- C3 (amended): merging 25 posts with distinct ids and strictly
increasing instants into the default store retains exactly the 20 newest
posts (newest first), clears isFirstTime, returns 25, and sets
lastFetchTime to the merge-call instant (not the newest post's
instant). -/
theorem claim3_first_merge (batch : List TwitterPost) (now : Int)
    (hlen : batch.length = 25)
    (hids : (batch.map TwitterPost.id).Nodup)
    (hinc : batch.Pairwise (fun a b => a.publishTime < b.publishTime)) :
    (addPosts batch now defaultState).1.posts = batch.reverse.take maxRetained ∧
      (addPosts batch now defaultState).1.isFirstTime = false ∧
      (addPosts batch now defaultState).1.lastFetchTime = some now ∧
      (addPosts batch now defaultState).2 = 25 := by
  have hnov : novelPosts batch defaultState = batch := by
    rw [novelPosts]
    apply List.filter_eq_self.2
    intro p _
    simp [defaultState]
  refine ⟨?_, rfl, rfl, ?_⟩
  · show (List.insertionSort postGE (novelPosts batch defaultState ++ defaultState.posts)).take maxRetained = _
    rw [hnov]
    show (List.insertionSort postGE (batch ++ [])).take maxRetained = _
    rw [List.append_nil, insertionSort_strictAsc batch hinc]
  · show (novelPosts batch defaultState).length = 25
    rw [hnov, hlen]

/-- C3 witness: the amended statement on the concrete 25-post batch. -/
theorem claim3_witness :
    (addPosts batch25 999 defaultState).1.posts = batch25.reverse.take maxRetained ∧
      (addPosts batch25 999 defaultState).1.isFirstTime = false ∧
      (addPosts batch25 999 defaultState).1.lastFetchTime = some 999 ∧
      (addPosts batch25 999 defaultState).2 = 25 :=
  claim3_first_merge batch25 999 (by decide) (by decide) (by decide)

/-- C4, counterexample: a batch holding two novel posts with the same id
makes the merge return 2, while the claim demands that the shared id count
once. -/
theorem claim4_counterexample :
    ¬ ((addPosts [postA, postB] 0 defaultState).2 = 1) := by
  decide

/-- Filtering through a projection commutes with mapping it, in length. -/
lemma length_filter_comp (f : TwitterPost → String) (q : String → Bool)
    (l : List TwitterPost) :
    (l.filter (fun p => q (f p))).length = ((l.map f).filter q).length := by
  induction l with
  | nil => rfl
  | cons a t ih =>
    rw [List.map_cons, List.filter_cons, List.filter_cons]
    cases hq : q (f a) <;> simp [hq, ih]

/-- C4 (amended): the returned count tallies every batch element whose id
is not already stored, one per occurrence; when the batch ids are pairwise
distinct this equals the number of distinct novel ids. -/
theorem claim4_count (b : List TwitterPost) (now : Int) (s : TwitterStorageState) :
    (addPosts b now s).2 = (novelPosts b s).length ∧
      ((b.map TwitterPost.id).Nodup →
        (addPosts b now s).2 =
          ((b.map TwitterPost.id).filter
            (fun i => i ∉ s.posts.map TwitterPost.id)).dedup.length) := by
  refine ⟨rfl, fun hnd => ?_⟩
  rw [(hnd.filter _).dedup]
  show (novelPosts b s).length = _
  rw [novelPosts]
  exact length_filter_comp TwitterPost.id
    (fun i => decide (i ∉ s.posts.map TwitterPost.id)) b

/-- C4 witness: the amended statement on a concrete batch. -/
theorem claim4_witness :
    (addPosts [postC] 3 defaultState).2 = (novelPosts [postC] defaultState).length ∧
      (addPosts [postC] 3 defaultState).2 =
        (([postC].map TwitterPost.id).filter
          (fun i => i ∉ defaultState.posts.map TwitterPost.id)).dedup.length :=
  ⟨(claim4_count [postC] 3 defaultState).1,
    (claim4_count [postC] 3 defaultState).2 (by decide)⟩

/-! Orchestrator: timer fire without a tracked tab (claim C9). -/

/-- C9: when no tab is tracked, a periodic-timer fire clears the repeating
interval and issues no host effect at all (no reload, no scrape
request). -/
theorem claim9_timer_fire_no_tab (s : BgState) (h : s.twitterTabId = none) :
    (onTimerFire s).1.refreshIntervalId = none ∧ (onTimerFire s).2 = [] := by
  have h2 : onTimerFire s = (stopPeriodicRefresh s, []) := by
    rw [onTimerFire, h]
  rw [h2]
  refine ⟨?_, rfl⟩
  cases hr : s.refreshIntervalId <;> simp [stopPeriodicRefresh, hr]

/-- C9 witness: a concrete state with an armed timer and no tracked tab. -/
theorem claim9_witness :
    (onTimerFire ⟨some 3, none, false, none⟩).1.refreshIntervalId = none ∧
      (onTimerFire ⟨some 3, none, false, none⟩).2 = [] :=
  claim9_timer_fire_no_tab ⟨some 3, none, false, none⟩ rfl

/-! Timestamp normalization fallback behaviour (claim C8). -/

/-- C8, counterexample: a present but unparseable datetime attribute does
not resolve to the current instant; the item's timestamp resolution raises
(the per-item handler then skips the item). -/
theorem claim8_counterexample :
    normalizePublishTime (fun _ => none) 1000 (some ['g']) [] =
        Except.error "RangeError: invalid time value" ∧
      normalizePublishTime (fun _ => none) 1000 (some ['g']) [] ≠
        Except.ok (1000 : Int) := by
  refine ⟨rfl, fun hcontra => ?_⟩
  exact Except.noConfusion hcontra

/-- C8 (amended): with no datetime attribute, resolution returns the
relative-parse result and in particular the current instant whenever the
text matches no relative token, never raising; with a present but
unparseable datetime attribute, resolution instead raises (the error is
caught per item and the item skipped). -/
theorem claim8_fallback (parseAbs : List Char → Option Int) (now : Int)
    (timeText : List Char) (a : List Char) :
    normalizePublishTime parseAbs now none timeText =
        Except.ok (parseRelativeTime now timeText) ∧
      (findTimeMatch timeText = none →
        normalizePublishTime parseAbs now none timeText = Except.ok now) ∧
      (parseAbs a = none →
        normalizePublishTime parseAbs now (some a) timeText =
          Except.error "RangeError: invalid time value") := by
  refine ⟨rfl, fun hm => ?_, fun hp => ?_⟩
  · simp [normalizePublishTime, parseRelativeTime, hm]
  · simp [normalizePublishTime, hp]

/-- C8 witness: the amended statement on concrete inputs. -/
theorem claim8_witness :
    normalizePublishTime (fun _ => none) 5 none ['x'] = Except.ok 5 ∧
      normalizePublishTime (fun _ => none) 5 (some ['g']) ['x'] =
        Except.error "RangeError: invalid time value" :=
  ⟨(claim8_fallback (fun _ => none) 5 ['x'] ['g']).2.1 (by decide),
    (claim8_fallback (fun _ => none) 5 ['x'] ['g']).2.2 rfl⟩

/-! Timestamp normalizer: relative tokens and display format (claim C7). -/

/-- Digit characters for values below ten are decimal digits. -/
lemma digitChar_isDigit : ∀ m, m < 10 → (Nat.digitChar m).isDigit = true := by
  decide

/-- Decimal rendering is never empty. -/
lemma natDigits_ne_nil (n : Nat) : natDigits n ≠ [] := by
  rw [natDigits]
  split <;> simp

/-- Decimal rendering consists of digit characters. -/
lemma natDigits_all_digit (n : Nat) : ∀ c ∈ natDigits n, c.isDigit = true := by
  induction n using Nat.strong_induction_on with
  | _ n ih =>
    rw [natDigits]
    split
    · rename_i h
      intro c hc
      rw [List.mem_singleton.1 hc]
      exact digitChar_isDigit n h
    · rename_i h
      intro c hc
      rcases List.mem_append.1 hc with h1 | h2
      · exact ih (n / 10) (Nat.div_lt_self (by omega) (by omega)) c h1
      · rw [List.mem_singleton.1 h2]
        exact digitChar_isDigit _ (Nat.mod_lt _ (by omega))

/-- One digit character for values below ten. -/
lemma natDigits_length_lt (n : Nat) (h : n < 10) : (natDigits n).length = 1 := by
  rw [natDigits, dif_pos h]
  rfl

/-- One extra digit character past each factor of ten. -/
lemma natDigits_length_ge (n : Nat) (h : 10 ≤ n) :
    (natDigits n).length = (natDigits (n / 10)).length + 1 := by
  rw [natDigits, dif_neg (by omega)]
  simp

/-- Four-digit rendering of a four-digit year. -/
lemma natDigits_length_year (n : Nat) (h1 : 1000 ≤ n) (h2 : n < 10000) :
    (natDigits n).length = 4 := by
  rw [natDigits_length_ge n (by omega), natDigits_length_ge (n / 10) (by omega),
    natDigits_length_ge (n / 10 / 10) (by omega),
    natDigits_length_lt (n / 10 / 10 / 10) (by omega)]

/-- At most two digit characters below one hundred. -/
lemma natDigits_length_le2 (n : Nat) (h : n < 100) : (natDigits n).length ≤ 2 := by
  by_cases h10 : n < 10
  · rw [natDigits_length_lt n h10]
    omega
  · rw [natDigits_length_ge n (by omega), natDigits_length_lt (n / 10) (by omega)]

/-- Zero-padding a rendering of at most two characters yields exactly
two. -/
lemma pad2_length (s : List Char) (h : s.length ≤ 2) : (pad2 s).length = 2 := by
  rw [pad2, List.length_append, List.length_replicate]
  omega

/-- Zero-padding preserves digit-ness. -/
lemma pad2_all_digit (s : List Char) (h : ∀ c ∈ s, c.isDigit = true) :
    ∀ c ∈ pad2 s, c.isDigit = true := by
  intro c hc
  rcases List.mem_append.1 hc with h1 | h2
  · rw [List.eq_of_mem_replicate h1]
    decide
  · exact h c h2

/-- takeWhile runs through a prefix that satisfies the predicate. -/
lemma takeWhile_all_append (p : Char → Bool) (l m : List Char)
    (h : ∀ c ∈ l, p c = true) :
    List.takeWhile p (l ++ m) = l ++ List.takeWhile p m := by
  induction l with
  | nil => rfl
  | cons c t ih =>
    rw [List.cons_append, List.takeWhile_cons, h c (List.mem_cons_self c t),
      if_pos rfl, ih (fun x hx => h x (List.mem_cons_of_mem c hx)), List.cons_append]

/-- dropWhile skips a prefix that satisfies the predicate. -/
lemma dropWhile_all_append (p : Char → Bool) (l m : List Char)
    (h : ∀ c ∈ l, p c = true) :
    List.dropWhile p (l ++ m) = List.dropWhile p m := by
  induction l with
  | nil => rfl
  | cons c t ih =>
    rw [List.cons_append, List.dropWhile_cons, h c (List.mem_cons_self c t)]
    exact ih (fun x hx => h x (List.mem_cons_of_mem c hx))

/-- The regex scan resolves a well-formed digits-then-unit token to its
digit run and unit letter. -/
lemma findTimeMatch_token (ds : List Char) (u : Char)
    (hne : ds ≠ []) (hdig : ∀ c ∈ ds, c.isDigit = true)
    (hu : u = 's' ∨ u = 'm' ∨ u = 'h' ∨ u = 'd') :
    findTimeMatch (ds ++ [u]) = some (ds, u) := by
  have hiu : u.isDigit = false := by
    rcases hu with h | h | h | h <;> subst h <;> decide
  cases ds with
  | nil => exact absurd rfl hne
  | cons c cs =>
    have hc : c.isDigit = true := hdig c (List.mem_cons_self c cs)
    have hdw : List.dropWhile Char.isDigit (c :: (cs ++ [u])) = [u] := by
      rw [← List.cons_append, dropWhile_all_append Char.isDigit (c :: cs) [u] hdig,
        List.dropWhile_cons, hiu]
      rfl
    have htw : List.takeWhile Char.isDigit (c :: (cs ++ [u])) = c :: cs := by
      rw [← List.cons_append, takeWhile_all_append Char.isDigit (c :: cs) [u] hdig,
        List.takeWhile_cons, hiu]
      simp
    rw [List.cons_append, findTimeMatch]
    simp only [hc, if_true, hdw, htw]
    rw [if_pos hu]

/-- Parsing a well-formed digits-then-unit token subtracts the decoded
duration from the evaluation instant. -/
lemma parseRelativeTime_token (now : Int) (ds : List Char) (u : Char)
    (hne : ds ≠ []) (hdig : ∀ c ∈ ds, c.isDigit = true)
    (hu : u = 's' ∨ u = 'm' ∨ u = 'h' ∨ u = 'd') :
    parseRelativeTime now (ds ++ [u]) =
      now - (digitsToNat ds : Int) * unitMillis u := by
  rw [parseRelativeTime, findTimeMatch_token ds u hne hdig hu]
  rcases hu with h | h | h | h <;> subst h <;> simp [unitMillis]

/-- The display format: some four digit characters, a slash, two digits, a
slash, two digits, a space, two digits, a colon, two digits, a colon, two
digits. -/
lemma formatTimestamp_shape (d : JSDateLocal)
    (hy1 : 1000 ≤ d.fullYear) (hy2 : d.fullYear < 10000)
    (hmo : d.month + 1 < 100) (hda : d.date < 100) (hho : d.hours < 100)
    (hmi : d.minutes < 100) (hse : d.seconds < 100) :
    ∃ y mo dd hh mi se : List Char,
      formatTimestamp d =
        y ++ '/' :: (mo ++ '/' :: (dd ++ ' ' :: (hh ++ ':' :: (mi ++ ':' :: se)))) ∧
      y.length = 4 ∧ mo.length = 2 ∧ dd.length = 2 ∧ hh.length = 2 ∧
      mi.length = 2 ∧ se.length = 2 ∧
      (∀ c ∈ y ++ (mo ++ (dd ++ (hh ++ (mi ++ se)))), c.isDigit = true) := by
  refine ⟨natDigits d.fullYear, pad2 (natDigits (d.month + 1)), pad2 (natDigits d.date),
    pad2 (natDigits d.hours), pad2 (natDigits d.minutes), pad2 (natDigits d.seconds),
    rfl, natDigits_length_year d.fullYear hy1 hy2,
    pad2_length _ (natDigits_length_le2 _ hmo), pad2_length _ (natDigits_length_le2 _ hda),
    pad2_length _ (natDigits_length_le2 _ hho), pad2_length _ (natDigits_length_le2 _ hmi),
    pad2_length _ (natDigits_length_le2 _ hse), ?_⟩
  intro c hc
  rcases List.mem_append.1 hc with h1 | h1
  · exact natDigits_all_digit _ c h1
  rcases List.mem_append.1 h1 with h2 | h2
  · exact pad2_all_digit _ (natDigits_all_digit _) c h2
  rcases List.mem_append.1 h2 with h3 | h3
  · exact pad2_all_digit _ (natDigits_all_digit _) c h3
  rcases List.mem_append.1 h3 with h4 | h4
  · exact pad2_all_digit _ (natDigits_all_digit _) c h4
  rcases List.mem_append.1 h4 with h5 | h5
  · exact pad2_all_digit _ (natDigits_all_digit _) c h5
  · exact pad2_all_digit _ (natDigits_all_digit _) c h5

/-- C7: a digits-then-unit relative token at evaluation instant now parses
to now minus the token's duration (unit milliseconds: s 1000, m 60000,
h 3600000, d 86400000), and the display timestamp renders as zero-padded
year/month/day hours:minutes:seconds with digit components of widths
4, 2, 2, 2, 2, 2. -/
theorem claim7_relative_time_and_format (now : Int) (ds : List Char) (u : Char)
    (d : JSDateLocal)
    (hne : ds ≠ []) (hdig : ∀ c ∈ ds, c.isDigit = true)
    (hu : u = 's' ∨ u = 'm' ∨ u = 'h' ∨ u = 'd')
    (hy1 : 1000 ≤ d.fullYear) (hy2 : d.fullYear < 10000)
    (hmo : d.month + 1 < 100) (hda : d.date < 100) (hho : d.hours < 100)
    (hmi : d.minutes < 100) (hse : d.seconds < 100) :
    parseRelativeTime now (ds ++ [u]) =
        now - (digitsToNat ds : Int) * unitMillis u ∧
      ∃ y mo dd hh mi se : List Char,
        formatTimestamp d =
          y ++ '/' :: (mo ++ '/' :: (dd ++ ' ' :: (hh ++ ':' :: (mi ++ ':' :: se)))) ∧
        y.length = 4 ∧ mo.length = 2 ∧ dd.length = 2 ∧ hh.length = 2 ∧
        mi.length = 2 ∧ se.length = 2 ∧
        (∀ c ∈ y ++ (mo ++ (dd ++ (hh ++ (mi ++ se)))), c.isDigit = true) :=
  ⟨parseRelativeTime_token now ds u hne hdig hu,
    formatTimestamp_shape d hy1 hy2 hmo hda hho hmi hse⟩

/-- C7 witness: the token 2h at instant 10000000 parses to the instant
minus two hours, and a concrete local date renders in the claimed
format. -/
theorem claim7_witness :
    parseRelativeTime 10000000 ['2', 'h'] =
        10000000 - (digitsToNat ['2'] : Int) * unitMillis 'h' ∧
      ∃ y mo dd hh mi se : List Char,
        formatTimestamp ⟨2024, 0, 15, 9, 5, 7⟩ =
          y ++ '/' :: (mo ++ '/' :: (dd ++ ' ' :: (hh ++ ':' :: (mi ++ ':' :: se)))) ∧
        y.length = 4 ∧ mo.length = 2 ∧ dd.length = 2 ∧ hh.length = 2 ∧
        mi.length = 2 ∧ se.length = 2 ∧
        (∀ c ∈ y ++ (mo ++ (dd ++ (hh ++ (mi ++ se)))), c.isDigit = true) :=
  claim7_relative_time_and_format 10000000 ['2'] 'h' ⟨2024, 0, 15, 9, 5, 7⟩
    (by decide) (by decide) (by decide) (by decide) (by decide) (by decide)
    (by decide) (by decide) (by decide) (by decide)

/-! Identity computation: total, deterministic, alphanumeric (claims C6
and C10). -/

/-- Every character holds a scalar value below 0x110000. -/
lemma char_toNat_lt (c : Char) : c.toNat < 1114112 := by
  rcases c.valid with h | h
  · exact lt_trans h (by norm_num)
  · exact h.2

/-- UTF-8 bytes of a valid code point stay at or below 244 (the largest
lead byte is 0xF4). -/
lemma utf8EncodeChar_le244 (c : Nat) (h : c < 1114112) :
    ∀ b ∈ utf8EncodeChar c, b ≤ 244 := by
  intro b hb
  rw [utf8EncodeChar] at hb
  split_ifs at hb with h1 h2 h3
  · simp only [List.mem_singleton] at hb
    omega
  · simp only [List.mem_cons, List.mem_singleton, List.not_mem_nil, or_false] at hb
    rcases hb with rfl | rfl <;> omega
  · simp only [List.mem_cons, List.mem_singleton, List.not_mem_nil, or_false] at hb
    rcases hb with rfl | rfl | rfl <;> omega
  · simp only [List.mem_cons, List.mem_singleton, List.not_mem_nil, or_false] at hb
    rcases hb with rfl | rfl | rfl | rfl <;> omega

/-- All UTF-8 bytes of a valid code-point sequence are below 256, so btoa
accepts them. -/
lemma utf8Encode_lt256 (s : List Nat) (h : ∀ c ∈ s, c < 1114112) :
    ∀ b ∈ utf8Encode s, b < 256 := by
  intro b hb
  rw [utf8Encode] at hb
  rcases List.mem_flatten.1 hb with ⟨l, hl, hbl⟩
  rcases List.mem_map.1 hl with ⟨c, hcs, rfl⟩
  have := utf8EncodeChar_le244 c (h c hcs) b hbl
  omega

/-- The id source only carries valid code points when author and content
do (its digit tail is ASCII). -/
lemma idSourceCps_valid (author content : List Nat) (t : Int)
    (ha : ∀ c ∈ author, c < 1114112) (hc : ∀ c ∈ content, c < 1114112) :
    ∀ c ∈ idSourceCps author content t, c < 1114112 := by
  intro c hcc
  rw [idSourceCps] at hcc
  rcases List.mem_append.1 hcc with h1 | h1
  · rcases List.mem_append.1 h1 with h2 | h2
    · exact ha c h2
    · exact hc c h2
  · rcases List.mem_map.1 h1 with ⟨ch, _, rfl⟩
    exact char_toNat_lt ch

/-- C6: the identity computation never raises and returns the one value
determined by the (author, content, instant) triple, for any author and
content code-point sequences, non-ASCII included. -/
theorem claim6_identity_total (author content : List Nat) (t : Int)
    (ha : ∀ c ∈ author, c < 1114112) (hc : ∀ c ∈ content, c < 1114112) :
    computeIdentityE author content t =
      Except.ok (computeIdentity author content t) := by
  have hall : (utf8Encode (idSourceCps author content t)).all
      (fun c => decide (c < 256)) = true := by
    rw [List.all_eq_true]
    intro b hb
    exact decide_eq_true
      (utf8Encode_lt256 _ (idSourceCps_valid author content t ha hc) b hb)
  rw [computeIdentityE, btoaE, if_pos hall]
  rfl

/-- C6 witness: a non-ASCII author and content pair (accented and CJK code
points). -/
theorem claim6_witness :
    computeIdentityE [74, 111, 115, 233] [20320, 22909] 1234567890 =
      Except.ok (computeIdentity [74, 111, 115, 233] [20320, 22909] 1234567890) :=
  claim6_identity_total [74, 111, 115, 233] [20320, 22909] 1234567890
    (by decide) (by decide)

/-- Sextet values below 62 map into the alphanumeric part of the base64
alphabet. -/
lemma b64Char_alnum : ∀ i, i < 62 → isAlnumChar (b64Char i) = true := by
  decide

/-- The first UTF-8 byte of a valid code point, made explicit. -/
lemma utf8EncodeChar_head (c : Nat) (h : c < 1114112) :
    ∃ b rest, utf8EncodeChar c = b :: rest ∧ b ≤ 244 := by
  rw [utf8EncodeChar]
  split_ifs with h1 h2 h3
  · exact ⟨c, [], rfl, by omega⟩
  · exact ⟨192 + c / 64, [128 + c % 64], rfl, by omega⟩
  · exact ⟨224 + c / 4096, [128 + c / 64 % 64, 128 + c % 64], rfl, by omega⟩
  · exact ⟨240 + c / 262144, [128 + c / 4096 % 64, 128 + c / 64 % 64, 128 + c % 64],
      rfl, by omega⟩

/-- Base64 output on a nonempty byte list whose first byte is at most 244
starts with an alphanumeric character. -/
lemma base64_head_alnum (b : Nat) (bs : List Nat) (h : b ≤ 244) :
    ∃ ch rest, base64Encode (b :: bs) = ch :: rest ∧ isAlnumChar ch = true := by
  have hch : isAlnumChar (b64Char (b / 4)) = true := b64Char_alnum (b / 4) (by omega)
  match bs with
  | [] => exact ⟨_, _, rfl, hch⟩
  | [b2] => exact ⟨_, _, rfl, hch⟩
  | b2 :: b3 :: bs3 => exact ⟨_, _, rfl, hch⟩

/-- Integer rendering is never empty. -/
lemma intDigits_ne_nil (t : Int) : intDigits t ≠ [] := by
  rw [intDigits]
  split
  · simp
  · exact natDigits_ne_nil _

/-- The id source string is never empty: it ends in the decimal rendering
of the time value. -/
lemma idSourceCps_ne_nil (author content : List Nat) (t : Int) :
    idSourceCps author content t ≠ [] := by
  rw [idSourceCps]
  intro h
  rcases List.append_eq_nil.1 h with ⟨_, h2⟩
  exact intDigits_ne_nil t (List.map_eq_nil_iff.1 h2)

/-- C10: every generated id is nonempty, at most 16 characters long and
purely alphanumeric; the encoding path never produces the empty string, so
the fallback id never replaces it. -/
theorem claim10_id_shape (author content : List Nat) (t : Int)
    (ha : ∀ c ∈ author, c < 1114112) (hc : ∀ c ∈ content, c < 1114112) :
    computeIdentity author content t ≠ [] ∧
      (computeIdentity author content t).length ≤ 16 ∧
      ∀ ch ∈ computeIdentity author content t, isAlnumChar ch = true := by
  have hvalid := idSourceCps_valid author content t ha hc
  obtain ⟨c0, s2, hs⟩ : ∃ c0 s2, idSourceCps author content t = c0 :: s2 := by
    cases hx : idSourceCps author content t with
    | nil => exact absurd hx (idSourceCps_ne_nil author content t)
    | cons a l => exact ⟨a, l, rfl⟩
  have hc0 : c0 < 1114112 := hvalid c0 (hs ▸ List.mem_cons_self c0 s2)
  obtain ⟨b0, brest, hb, hb244⟩ := utf8EncodeChar_head c0 hc0
  have hbytes : utf8Encode (idSourceCps author content t) =
      b0 :: (brest ++ (List.map utf8EncodeChar s2).flatten) := by
    rw [utf8Encode, hs, List.map_cons, List.flatten_cons, hb, List.cons_append]
  obtain ⟨ch0, chrest, hb64, hch0⟩ :=
    base64_head_alnum b0 (brest ++ (List.map utf8EncodeChar s2).flatten) hb244
  obtain ⟨frest, hf⟩ : ∃ frest,
      (base64Encode (utf8Encode (idSourceCps author content t))).filter isAlnumChar =
        ch0 :: frest := by
    rw [hbytes, hb64, List.filter_cons, hch0]
    exact ⟨_, rfl⟩
  refine ⟨?_, ?_, ?_⟩
  · rw [computeIdentity, hf]
    have hlen : 0 < (List.take 16 (ch0 :: frest)).length := by
      rw [List.length_take, List.length_cons]
      omega
    exact List.length_pos.1 hlen
  · rw [computeIdentity]
    exact List.length_take_le 16 _
  · rw [computeIdentity]
    intro ch hch
    exact List.of_mem_filter (List.take_subset 16 _ hch)

/-- C10 witness: the id of a concrete post source. -/
theorem claim10_witness :
    computeIdentity [97] [98] 0 ≠ [] ∧
      (computeIdentity [97] [98] 0).length ≤ 16 ∧
      ∀ ch ∈ computeIdentity [97] [98] 0, isAlnumChar ch = true :=
  claim10_id_shape [97] [98] 0 (by decide) (by decide)

/-! Scroll collector stopping policy (claim C5). -/

/-- The per-step fold never lowers its found-new flag. -/
lemma foldl_flag_mono (v : List RawTweet) :
    ∀ acc : List RawTweet × List String × Bool, acc.2.2 = true →
      (v.foldl scrapeStep acc).2.2 = true := by
  induction v with
  | nil => intro acc h; exact h
  | cons t v ih =>
    intro acc h
    apply ih
    rw [scrapeStep]
    split
    · exact h
    · rfl

/-- The per-step fold never shortens the accumulator. -/
lemma foldl_length_mono (v : List RawTweet) :
    ∀ acc : List RawTweet × List String × Bool,
      acc.1.length ≤ (v.foldl scrapeStep acc).1.length := by
  induction v with
  | nil => intro acc; exact le_refl _
  | cons t v ih =>
    intro acc
    refine le_trans ?_ (ih (scrapeStep acc t))
    rw [scrapeStep]
    split
    · exact le_refl _
    · simp

/-- Starting with the flag cleared, the fold reports no novel tweet
exactly when the accumulator kept its length. -/
lemma foldl_flag_iff (v : List RawTweet) :
    ∀ (c : List RawTweet) (k : List String),
      ((v.foldl scrapeStep (c, k, false)).2.2 = false ↔
        (v.foldl scrapeStep (c, k, false)).1.length = c.length) := by
  induction v with
  | nil => intro c k; simp
  | cons t v ih =>
    intro c k
    rw [List.foldl_cons]
    by_cases hmem : uniqueKey t ∈ k
    · rw [show scrapeStep (c, k, false) t = (c, k, false) by
        rw [scrapeStep]; exact if_pos hmem]
      exact ih c k
    · rw [show scrapeStep (c, k, false) t = (c ++ [t], uniqueKey t :: k, true) by
        rw [scrapeStep]; exact if_neg hmem]
      constructor
      · intro hfalse
        have h1 := foldl_flag_mono v (c ++ [t], uniqueKey t :: k, true) rfl
        rw [hfalse] at h1
        exact Bool.noConfusion h1
      · intro hlen
        have h2 := foldl_length_mono v (c ++ [t], uniqueKey t :: k, true)
        rw [hlen] at h2
        simp only [List.length_append, List.length_cons, List.length_nil] at h2
        exact absurd h2 (by omega)

/-- Exit case of the loop characterization: the step counter has used up
all attempts. -/
lemma scrapeLoop_spec_exit (view : Nat → List RawTweet) (m : Nat)
    (hcount : collectedCount view m < minTweetsToCollect)
    (hm : m = maxScrollAttempts)
    (hprev : m ≤ 1 ∨ collectedCount view m ≠ collectedCount view (m - 1)) :
    runSpec view m (scrapeLoop view (freeState view m).1 (freeState view m).2 m) := by
  have hmx : maxScrollAttempts = 10 := rfl
  have hne : collectedCount view m ≠ collectedCount view (m - 1) := by
    rcases hprev with h | h
    · exact absurd h (by omega)
    · exact h
  rw [scrapeLoop, dif_neg (fun hcond => absurd hcond.2 (by omega))]
  rw [runSpec]
  subst hm
  have hncond : ¬ (minTweetsToCollect ≤ (freeState view maxScrollAttempts).1.length) :=
    Nat.not_le.2 hcount
  rw [if_neg hncond]
  refine ⟨rfl, le_refl _, (by decide : (1 : Nat) ≤ 10), le_refl _, ?_, ?_, ?_⟩
  · exact iff_of_false (fun h => StopReason.noConfusion h) (Nat.not_le.2 hcount)
  · exact iff_of_false (fun h => StopReason.noConfusion h) (fun hr => hne hr.2.2)
  · exact iff_of_true rfl ⟨hcount, rfl, hne⟩

/-- Loop characterization, by induction on the remaining fuel. -/
lemma scrapeLoop_spec (view : Nat → List RawTweet) :
    ∀ (fuel m : Nat), maxScrollAttempts - m ≤ fuel →
      collectedCount view m < minTweetsToCollect →
      m ≤ maxScrollAttempts →
      (m ≤ 1 ∨ collectedCount view m ≠ collectedCount view (m - 1)) →
      runSpec view m (scrapeLoop view (freeState view m).1 (freeState view m).2 m) := by
  have hmx : maxScrollAttempts = 10 := rfl
  intro fuel
  induction fuel with
  | zero =>
    intro m hfuel hcount hm hprev
    exact scrapeLoop_spec_exit view m hcount (by omega) hprev
  | succ fuel ih =>
    intro m hfuel hcount hm hprev
    by_cases hm10 : m = maxScrollAttempts
    · exact scrapeLoop_spec_exit view m hcount hm10 hprev
    · have hmlt : m < maxScrollAttempts := by omega
      have hc0 : (freeState view m).1.length < minTweetsToCollect := hcount
      rw [scrapeLoop, dif_pos ⟨hc0, hmlt⟩]
      have hout1 : (stepMerge (freeState view m).1 (freeState view m).2 (view m)).1 =
          (freeState view (m + 1)).1 := rfl
      have hlen1 : (stepMerge (freeState view m).1 (freeState view m).2 (view m)).1.length =
          collectedCount view (m + 1) := rfl
      by_cases hT : minTweetsToCollect ≤
          (stepMerge (freeState view m).1 (freeState view m).2 (view m)).1.length ∧
          0 < m + 1
      · rw [if_pos hT]
        have hcc : minTweetsToCollect ≤ collectedCount view (m + 1) := hT.1
        rw [runSpec]
        refine ⟨hout1, Nat.le_succ m, Nat.succ_le_succ (Nat.zero_le m), hmlt, ?_, ?_, ?_⟩
        · exact iff_of_true rfl hcc
        · exact iff_of_false (fun h => StopReason.noConfusion h)
            (fun hr => absurd hr.1 (Nat.not_lt.2 hcc))
        · exact iff_of_false (fun h => StopReason.noConfusion h)
            (fun hr => absurd hr.1 (Nat.not_lt.2 hcc))
      · have hcnew : collectedCount view (m + 1) < minTweetsToCollect := by
          have : ¬ minTweetsToCollect ≤ collectedCount view (m + 1) := by
            intro hle
            exact hT ⟨hle, Nat.succ_pos m⟩
          omega
        by_cases hN : (stepMerge (freeState view m).1 (freeState view m).2 (view m)).2.2 =
            false ∧ 1 < m + 1
        · rw [if_neg hT, if_pos hN]
          have heq : collectedCount view (m + 1) = collectedCount view m :=
            (foldl_flag_iff (view m) (freeState view m).1 (freeState view m).2).1 hN.1
          rw [runSpec]
          refine ⟨hout1, Nat.le_succ m, Nat.succ_le_succ (Nat.zero_le m), hmlt, ?_, ?_, ?_⟩
          · exact iff_of_false (fun h => StopReason.noConfusion h) (Nat.not_le.2 hcnew)
          · exact iff_of_true rfl ⟨hcnew, hN.2, heq⟩
          · refine iff_of_false (fun h => StopReason.noConfusion h) (fun hr => ?_)
            have hat : m + 1 = maxScrollAttempts := hr.2.1
            apply hr.2.2
            rw [← hat]
            exact heq
        · rw [if_neg hT, if_neg hN]
          have hflag : (stepMerge (freeState view m).1 (freeState view m).2 (view m)).2.2 =
              true ∨ m + 1 ≤ 1 := by
            by_cases hb : (stepMerge (freeState view m).1 (freeState view m).2 (view m)).2.2 =
                false
            · right
              by_contra hcon
              exact hN ⟨hb, by omega⟩
            · left
              exact eq_true_of_ne_false hb
          have hprev2 : m + 1 ≤ 1 ∨
              collectedCount view (m + 1) ≠ collectedCount view m := by
            rcases hflag with hb | hb
            · right
              intro heq
              have hfl2 : (stepMerge (freeState view m).1 (freeState view m).2
                  (view m)).2.2 = false :=
                (foldl_flag_iff (view m) (freeState view m).1 (freeState view m).2).2 heq
              rw [hfl2] at hb
              exact Bool.noConfusion hb
            · left
              exact hb
          have hres := ih (m + 1) (by omega) hcnew (by omega) hprev2
          rw [runSpec] at hres ⊢
          exact ⟨hres.1, le_trans (Nat.le_succ m) hres.2.1, hres.2.2.1, hres.2.2.2.1,
            hres.2.2.2.2.1, hres.2.2.2.2.2.1, hres.2.2.2.2.2.2⟩

/-- C5: a collector run accumulates the free-running state of its final
step counter, executes between 1 and 10 steps, and its stop reason is
TargetReached exactly when the accumulated count reached
minTweetsToCollect, NoNewContent exactly when the count fell short of the
target and the final executed step came after the first and contributed
zero tweets novel within the run, and MaxAttemptsReached exactly when the
count fell short of the target after all 10 steps with the last step still
contributing a novel tweet. -/
theorem claim5_scroll_stop_reasons (view : Nat → List RawTweet) :
    (scrapeTweetsWithScrolling view).tweets =
        (freeState view (scrapeTweetsWithScrolling view).attempts).1 ∧
      1 ≤ (scrapeTweetsWithScrolling view).attempts ∧
      (scrapeTweetsWithScrolling view).attempts ≤ maxScrollAttempts ∧
      ((scrapeTweetsWithScrolling view).reason = StopReason.TargetReached ↔
        minTweetsToCollect ≤
          collectedCount view (scrapeTweetsWithScrolling view).attempts) ∧
      ((scrapeTweetsWithScrolling view).reason = StopReason.NoNewContent ↔
        collectedCount view (scrapeTweetsWithScrolling view).attempts <
            minTweetsToCollect ∧
          2 ≤ (scrapeTweetsWithScrolling view).attempts ∧
          collectedCount view (scrapeTweetsWithScrolling view).attempts =
            collectedCount view ((scrapeTweetsWithScrolling view).attempts - 1)) ∧
      ((scrapeTweetsWithScrolling view).reason = StopReason.MaxAttemptsReached ↔
        collectedCount view (scrapeTweetsWithScrolling view).attempts <
            minTweetsToCollect ∧
          (scrapeTweetsWithScrolling view).attempts = maxScrollAttempts ∧
          collectedCount view maxScrollAttempts ≠
            collectedCount view (maxScrollAttempts - 1)) := by
  have h := scrapeLoop_spec view maxScrollAttempts 0 (le_refl _)
    ((by decide : (0 : Nat) < 20) : collectedCount view 0 < minTweetsToCollect)
    (by decide) (Or.inl (by decide))
  rw [runSpec] at h
  exact ⟨h.1, h.2.2.1, h.2.2.2.1, h.2.2.2.2.1, h.2.2.2.2.2.1, h.2.2.2.2.2.2⟩

end TweetsTrack
